import Mathlib

/-!
Shallow embedding of the task-scheduling and thread-synchronization core of
the rCore teaching kernel (src/os/src/sync/{mutex,semaphore,mod}.rs,
src/os/src/task/{manager,processor}.rs), together with proofs about the
claims of its specification.

Modelling conventions:
* `Tid` (`type Tid = usize` in src/os/src/sync/mod.rs) is `Nat`.
* `Arc<TaskControlBlock>` entries held in wait queues are identified by
  their `tid` (the only field the embedded code reads from them).
* Rust `usize`/`isize` are modelled as `Nat`/`Int`; the spec flags stride
  overflow as an open question with no wraparound handling in the source,
  so the unbounded model matches the documented intent.
* Fallible steps (panics of the exclusive-access cell, failed assertions)
  are modelled with `Except Panic`.
-/

namespace RCore

abbrev Tid := Nat

/-- Reasons the embedded kernel code can die fatally. -/
inductive Panic where
  /-- the exclusive-access cell was acquired while already held -/
  | borrowReentry : Panic
  /-- a failed `assert!` -/
  | assertionFailure : Panic
deriving Repr, DecidableEq

/-- Modelled from the spec: `UPSafeCell` lives in src/os/src/sync/up.rs,
which is not among the provided sources (only `mod up;` and its users are).
Per the spec, process-wide mutable state "is wrapped so that at most one
logical accessor holds a mutable view at any instant; attempting to acquire
it while already held is a fatal programming error (panic), not a blocking
wait".  We model the cell as its value together with a borrow flag;
`exclusive_access` fails when the flag is already set. -/
structure UPSafeCell (α : Type) where
  value : α
  borrowed : Bool
deriving Repr, DecidableEq

/-- Modelled from the spec: acquiring the exclusive-access cell.  Returns
the mutable view and the cell with the borrow marked held, or panics if the
cell is already held. -/
def UPSafeCell.exclusive_access (c : UPSafeCell α) : Except Panic (α × UPSafeCell α) :=
  if c.borrowed then .error .borrowReentry
  else .ok (c.value, { c with borrowed := true })

/-- Modelled from the spec: dropping the mutable view writes the (possibly
mutated) value back and releases the borrow; release is guaranteed on every
exit path of the scoped guard. -/
def UPSafeCell.release (_c : UPSafeCell α) (a : α) : UPSafeCell α :=
  { value := a, borrowed := false }

/-! ## Spinlock mutex (src/os/src/sync/mutex.rs, `MutexSpin`) -/

/-- State behind `MutexSpin`'s cell: `locked: bool`, `allocated_to: Tid`
(meaningful only while locked). -/
structure MutexSpinInner where
  locked : Bool
  allocated_to : Tid
deriving Repr, DecidableEq

/-- `MutexSpin::new`: unlocked, holder field zeroed, cell not borrowed. -/
def MutexSpin.new : UPSafeCell MutexSpinInner :=
  { value := { locked := false, allocated_to := 0 }, borrowed := false }

/-- One iteration of the `loop` in `MutexSpin::lock`, executed by the current
thread `tid`: acquire the cell; if locked, drop the view and suspend (the
caller will retry, result `false`); otherwise mark locked, record `tid` as
holder and return (result `true`). -/
def MutexSpin.lockStep (tid : Tid) (m : UPSafeCell MutexSpinInner) :
    Except Panic (UPSafeCell MutexSpinInner × Bool) := do
  let (inner, c) ← m.exclusive_access
  if inner.locked then
    pure (c.release inner, false)
  else
    pure (c.release { inner with locked := true, allocated_to := tid }, true)

/-- `MutexSpin::unlock`: clear the locked flag; no assertion, no wakeup
(waiters re-poll after being rescheduled), so unlocking an already-unlocked
spinlock is accepted silently. -/
def MutexSpin.unlock (m : UPSafeCell MutexSpinInner) :
    Except Panic (UPSafeCell MutexSpinInner) := do
  let (inner, c) ← m.exclusive_access
  pure (c.release { inner with locked := false })

/-- `MutexSpin::get_available`: 0 when locked, 1 when free.  The borrow taken
for the match scrutinee is dropped at the end of the match with no nested
re-acquisition. -/
def MutexSpin.get_available (m : UPSafeCell MutexSpinInner) : Except Panic Nat := do
  let (inner, c) ← m.exclusive_access
  match inner.locked with
  | true => pure (let _ := c.release inner; 0)
  | false => pure (let _ := c.release inner; 1)

/-- `MutexSpin::get_allocation`, translated borrow-for-borrow.  The Rust code
matches on `self.inner.exclusive_access().locked`; the scrutinee temporary
(the mutable view of the cell) lives until the end of the whole `match`
expression, and the `true` arm calls `self.inner.exclusive_access()` again
while that first view is still alive. -/
def MutexSpin.get_allocation (m : UPSafeCell MutexSpinInner) :
    Except Panic (List (Tid × Nat)) := do
  let (inner1, c1) ← m.exclusive_access
  match inner1.locked with
  | true => do
      let (inner2, c2) ← c1.exclusive_access
      pure (let _ := c2.release inner2; [(inner2.allocated_to, 1)])
  | false => pure (let _ := c1.release inner1; [])

/-- `MutexSpin::get_need`: literally `vec![]`; the spinlock records no
waiters anywhere, and this query does not even touch the cell. -/
def MutexSpin.get_need (_m : UPSafeCell MutexSpinInner) : List (Tid × Nat) := []

/-! ## Blocking mutex (src/os/src/sync/mutex.rs, `MutexBlocking`) -/

/-- State behind `MutexBlocking`'s cell: `locked`, `allocated_to`, and the
FIFO `wait_queue` of blocked threads (each `Arc<TaskControlBlock>` entry is
identified by its tid). -/
structure MutexBlockingInner where
  locked : Bool
  allocated_to : Tid
  wait_queue : List Tid
deriving Repr, DecidableEq

/-- `MutexBlocking::new`: unlocked, holder field zeroed, empty wait queue. -/
def MutexBlocking.new : UPSafeCell MutexBlockingInner :=
  { value := { locked := false, allocated_to := 0, wait_queue := [] }, borrowed := false }

/-- `MutexBlocking::lock`, executed by the current thread `tid`: if locked,
push the caller to the back of the wait queue, drop the view and block
(result `true` = the caller blocked; it resumes here and returns once some
`unlock` wakes it, with no further state change); otherwise mark locked and
record the holder (result `false`). -/
def MutexBlocking.lock (tid : Tid) (m : UPSafeCell MutexBlockingInner) :
    Except Panic (UPSafeCell MutexBlockingInner × Bool) := do
  let (inner, c) ← m.exclusive_access
  if inner.locked then
    pure (c.release { inner with wait_queue := inner.wait_queue ++ [tid] }, true)
  else
    pure (c.release { inner with locked := true, allocated_to := tid }, false)

/-- `MutexBlocking::unlock`: `assert!(locked)` (fatal if not held); if the
wait queue is non-empty, pop its head and wake it — `locked` and
`allocated_to` are deliberately left untouched, ownership passes to the
woken thread; if the queue is empty, clear `locked`.  Returns the new cell
and the tid woken, if any. -/
def MutexBlocking.unlock (m : UPSafeCell MutexBlockingInner) :
    Except Panic (UPSafeCell MutexBlockingInner × Option Tid) := do
  let (inner, c) ← m.exclusive_access
  if inner.locked then
    match inner.wait_queue with
    | waking_task :: rest =>
        pure (c.release { inner with wait_queue := rest }, some waking_task)
    | [] => pure (c.release { inner with locked := false }, none)
  else
    throw .assertionFailure

/-- `MutexBlocking::get_available`: 0 when locked, 1 when free. -/
def MutexBlocking.get_available (m : UPSafeCell MutexBlockingInner) : Except Panic Nat := do
  let (inner, c) ← m.exclusive_access
  match inner.locked with
  | true => pure (let _ := c.release inner; 0)
  | false => pure (let _ := c.release inner; 1)

/-- `MutexBlocking::get_allocation`: here the view is bound with a `let`
before the match, so there is a single acquisition; the holder pair is
returned when locked. -/
def MutexBlocking.get_allocation (m : UPSafeCell MutexBlockingInner) :
    Except Panic (List (Tid × Nat)) := do
  let (mutex_inner, c) ← m.exclusive_access
  match mutex_inner.locked with
  | true => pure (let _ := c.release mutex_inner; [(mutex_inner.allocated_to, 1)])
  | false => pure (let _ := c.release mutex_inner; [])

/-- `MutexBlocking::get_need`: each queued thread demands one unit.  (The
Rust code reads each queued TCB's tid through that TCB's own cell, a cell
distinct from the mutex's and not held here.) -/
def MutexBlocking.get_need (m : UPSafeCell MutexBlockingInner) :
    Except Panic (List (Tid × Nat)) := do
  let (mutex_inner, c) ← m.exclusive_access
  pure (let _ := c.release mutex_inner; mutex_inner.wait_queue.map (fun tid => (tid, 1)))

/-! ## Counting semaphore (src/os/src/sync/semaphore.rs) -/

/-- State behind `Semaphore`'s cell: signed `count`, the `BTreeSet` of
holders `allocated_to` (modelled as a `Finset`), and the FIFO `wait_queue`. -/
structure SemaphoreInner where
  count : Int
  allocated_to : Finset Tid
  wait_queue : List Tid
deriving DecidableEq

/-- `Semaphore::new(res_count)`: `count = res_count as isize`, no holders,
empty wait queue. -/
def Semaphore.new (res_count : Nat) : UPSafeCell SemaphoreInner :=
  { value := { count := (res_count : Int), allocated_to := ∅, wait_queue := [] },
    borrowed := false }

/-- `Semaphore::up`, executed by the current thread `tid`
(`current_task_id().unwrap()`): remove `tid` from `allocated_to`, increment
`count`; if the post-increment count is ≤ 0, pop the head of the wait queue
and wake it — an `if let` that is a silent no-op when the queue is empty.
Returns the new cell and the tid woken, if any. -/
def Semaphore.up (tid : Tid) (s : UPSafeCell SemaphoreInner) :
    Except Panic (UPSafeCell SemaphoreInner × Option Tid) := do
  let (inner, c) ← s.exclusive_access
  let inner := { inner with allocated_to := inner.allocated_to.erase tid }
  let inner := { inner with count := inner.count + 1 }
  if inner.count ≤ 0 then
    match inner.wait_queue with
    | task :: rest => pure (c.release { inner with wait_queue := rest }, some task)
    | [] => pure (c.release inner, none)
  else
    pure (c.release inner, none)

/-- `Semaphore::down`, executed by the current thread `tid`: decrement
`count`; if it became negative, push the caller to the back of the wait
queue, drop the view and block (result `true`; the caller resumes here and
returns once woken, with no further state change — in particular its tid is
never inserted into `allocated_to` on this path); otherwise insert the
caller into `allocated_to` (result `false`). -/
def Semaphore.down (tid : Tid) (s : UPSafeCell SemaphoreInner) :
    Except Panic (UPSafeCell SemaphoreInner × Bool) := do
  let (inner, c) ← s.exclusive_access
  let inner := { inner with count := inner.count - 1 }
  if inner.count < (0 : Int) then
    pure (c.release { inner with wait_queue := inner.wait_queue ++ [tid] }, true)
  else
    pure (c.release { inner with allocated_to := insert tid inner.allocated_to }, false)

/-- `Semaphore::get_available`: `max(count, 0)` as a `usize`. -/
def Semaphore.get_available (s : UPSafeCell SemaphoreInner) : Except Panic Nat := do
  let (inner, c) ← s.exclusive_access
  match inner.count with
  | n => pure (let _ := c.release inner; if n < 0 then 0 else n.toNat)

/-- `Semaphore::get_allocation`: one `(tid, 1)` pair per holder, iterated in
the `BTreeSet`'s ascending order. -/
def Semaphore.get_allocation (s : UPSafeCell SemaphoreInner) :
    Except Panic (List (Tid × Nat)) := do
  let (inner, c) ← s.exclusive_access
  pure (let _ := c.release inner;
        (inner.allocated_to.sort (· ≤ ·)).map (fun tid => (tid, 1)))

/-- `Semaphore::get_need`: each queued thread demands one unit. -/
def Semaphore.get_need (s : UPSafeCell SemaphoreInner) :
    Except Panic (List (Tid × Nat)) := do
  let (inner, c) ← s.exclusive_access
  pure (let _ := c.release inner; inner.wait_queue.map (fun tid => (tid, 1)))

/-! ## Ready-queue scheduler (src/os/src/task/manager.rs) -/

/-- `const BIG_STRIDE: usize = 1 << 30;` -/
def BIG_STRIDE : Nat := 1 <<< 30

/-- The fields of a `TaskControlBlock`'s inner state that the scheduler
reads and writes (through the TCB's own cell, which is taken once per
operation and released before queue manipulation). -/
structure TaskControlBlock where
  tid : Tid
  priority : Nat
  stride : Nat
deriving Repr, DecidableEq

/-- The scheduler's `ready_queue: VecDeque<(Arc<TaskControlBlock>, usize)>`:
each entry pairs the task with the stride recorded at insertion time. -/
abbrev ReadyQueue := List (TaskControlBlock × Nat)

/-- `TaskManager::add`: compute `pass = BIG_STRIDE / priority`, bump the
task's stride by `pass`, then insert the task before the first queue entry
whose recorded stride is strictly greater than the new stride
(`iter().position(|(_, s)| s > &new_stride)`), or push it to the back when
no such entry exists. -/
def TaskManager.add (q : ReadyQueue) (task : TaskControlBlock) : ReadyQueue :=
  let pass := BIG_STRIDE / task.priority
  let new_stride := task.stride + pass
  let task := { task with stride := new_stride }
  match q.findIdx? (fun e => e.2 > new_stride) with
  | some index => q.insertIdx index (task, new_stride)
  | none => q ++ [(task, new_stride)]

/-- `TaskManager::fetch`: `pop_front`, returning the task of the front entry
and the remaining queue. -/
def TaskManager.fetch (q : ReadyQueue) : Option TaskControlBlock × ReadyQueue :=
  match q with
  | [] => (none, [])
  | e :: rest => (some e.1, rest)

/-- The entry `TaskManager::add` inserts for a task: the task with its
stride bumped by `pass = BIG_STRIDE / priority` (integer division), paired
with that new stride as the recorded key. -/
def TaskManager.entryOf (t : TaskControlBlock) : TaskControlBlock × Nat :=
  ({ t with stride := t.stride + BIG_STRIDE / t.priority },
   t.stride + BIG_STRIDE / t.priority)

/-- The ready queue is sorted ascending by recorded stride. -/
def sortedByStride (q : ReadyQueue) : Prop :=
  List.Pairwise (fun a b : TaskControlBlock × Nat => a.2 ≤ b.2) q

/-! ## Priority syscall (src/os/src/task/processor.rs, `set_priority`) -/

/-- `set_priority(prio)` acting on the current task: reject `prio < 2` with
the sentinel `-1` and leave the task unchanged; otherwise store
`prio as usize` in the task's priority and return `prio`. -/
def set_priority (prio : Int) (task : TaskControlBlock) : Int × TaskControlBlock :=
  if prio < 2 then (-1, task)
  else (prio, { task with priority := prio.toNat })

/-! ## Interleaving semantics for the blocking mutex

Threads follow the lock/unlock protocol ("a successful `lock` and its
matching `unlock`"): a thread may call `lock` when it neither holds the
mutex nor waits on it, and `unlock` only while it observes itself as
holder.  The per-thread observation tracks exactly what the control flow of
`MutexBlocking::lock`/`unlock` implies: a thread whose `lock` returned
without blocking, or that was woken by an `unlock` (it resumes inside its
own `lock` already past the blocking point and must treat itself as the new
holder), observes itself as holder until its own `unlock`. -/

/-- What a thread observes about one blocking mutex. -/
inductive MBObs where
  | idle : MBObs
  | blocked : MBObs
  | holding : MBObs
deriving Repr, DecidableEq

/-- A blocking mutex's state together with every thread's observation.
Between operations the cell is not borrowed, so steps run the embedded code
on `⟨inner, false⟩`. -/
structure MBState where
  inner : MutexBlockingInner
  obs : Tid → MBObs

/-- Initial state: a freshly created blocking mutex, no thread involved. -/
def MBState.init : MBState :=
  { inner := MutexBlocking.new.value, obs := fun _ => MBObs.idle }

/-- One interleaving step on a blocking mutex: some thread `t` runs `lock`
or `unlock` to completion (the cell is taken and released inside). -/
inductive MBStep : MBState → MBState → Prop where
  | lock (t : Tid) (s : MBState) (c : UPSafeCell MutexBlockingInner) (b : Bool) :
      s.obs t = MBObs.idle →
      MutexBlocking.lock t { value := s.inner, borrowed := false } = .ok (c, b) →
      MBStep s
        { inner := c.value,
          obs := fun u =>
            if u = t then (if b then MBObs.blocked else MBObs.holding) else s.obs u }
  | unlock (t : Tid) (s : MBState) (c : UPSafeCell MutexBlockingInner) (w : Option Tid) :
      s.obs t = MBObs.holding →
      MutexBlocking.unlock { value := s.inner, borrowed := false } = .ok (c, w) →
      MBStep s
        { inner := c.value,
          obs := fun u =>
            if some u = w then MBObs.holding
            else if u = t then MBObs.idle else s.obs u }

/-- States reachable from a fresh blocking mutex by protocol-respecting
interleavings. -/
def MBReachable (s : MBState) : Prop :=
  Relation.ReflTransGen MBStep MBState.init s

/-- At most one thread observes itself as holder. -/
def MBState.atMostOneHolder (s : MBState) : Prop :=
  ∀ t u, s.obs t = MBObs.holding → s.obs u = MBObs.holding → t = u

/-- The `get_allocation` query never lists more than one tid. -/
def MutexBlocking.allocationAtMostOne (s : MBState) : Prop :=
  ∀ l, MutexBlocking.get_allocation { value := s.inner, borrowed := false } = .ok l →
    l.length ≤ 1

/-- Waking order of successive `MutexBlocking::unlock` calls: the list of
tids woken by `n` unlocks in a row (stopping early if an unlock faults or
wakes nobody). -/
def MutexBlocking.unlockRun : Nat → MutexBlockingInner → List Tid
  | 0, _ => []
  | n + 1, i =>
    match MutexBlocking.unlock { value := i, borrowed := false } with
    | .ok (c, some w) => w :: MutexBlocking.unlockRun n c.value
    | _ => []

/-! ## Interleaving semantics for the spinlock mutex

Same protocol discipline: `lock` is a retry loop, so a thread is either
idle, busy-waiting between two iterations of the loop (spinning), or
holding; `unlock` is called by the holder. -/

/-- What a thread observes about one spinlock. -/
inductive MSObs where
  | idle : MSObs
  | spinning : MSObs
  | holding : MSObs
deriving Repr, DecidableEq

/-- A spinlock's state together with every thread's observation. -/
structure MSState where
  inner : MutexSpinInner
  obs : Tid → MSObs

/-- Initial state: a freshly created spinlock, no thread involved. -/
def MSState.init : MSState :=
  { inner := MutexSpin.new.value, obs := fun _ => MSObs.idle }

/-- One interleaving step on a spinlock: a thread starts or retries the
lock loop (one `lockStep` iteration), or the holder unlocks. -/
inductive MSStep : MSState → MSState → Prop where
  | lockTry (t : Tid) (s : MSState) (c : UPSafeCell MutexSpinInner) (b : Bool) :
      (s.obs t = MSObs.idle ∨ s.obs t = MSObs.spinning) →
      MutexSpin.lockStep t { value := s.inner, borrowed := false } = .ok (c, b) →
      MSStep s
        { inner := c.value,
          obs := fun u =>
            if u = t then (if b then MSObs.holding else MSObs.spinning) else s.obs u }
  | unlock (t : Tid) (s : MSState) (c : UPSafeCell MutexSpinInner) :
      s.obs t = MSObs.holding →
      MutexSpin.unlock { value := s.inner, borrowed := false } = .ok c →
      MSStep s
        { inner := c.value,
          obs := fun u => if u = t then MSObs.idle else s.obs u }

/-- States reachable from a fresh spinlock by protocol-respecting
interleavings. -/
def MSReachable (s : MSState) : Prop :=
  Relation.ReflTransGen MSStep MSState.init s

/-- At most one thread observes itself as holder. -/
def MSState.atMostOneHolder (s : MSState) : Prop :=
  ∀ t u, s.obs t = MSObs.holding → s.obs u = MSObs.holding → t = u

/-- The `get_allocation` query never lists more than one tid (when it
returns at all — on a locked spinlock it panics instead, see the C1
analysis). -/
def MutexSpin.allocationAtMostOne (s : MSState) : Prop :=
  ∀ l, MutexSpin.get_allocation { value := s.inner, borrowed := false } = .ok l →
    l.length ≤ 1

/-! ## Semaphore operation sequences with ghost counters

Any sequence of `down`/`up` calls by arbitrary current threads, with two
ghost counters for the conservation claim: `downsCompleted` counts `down`
calls that have been granted a unit — a `down` that returns immediately is
granted on the spot, a blocked `down` is granted at the instant an `up`
pops it off the wait queue and wakes it (the woken call then merely returns
when rescheduled, changing no further state); `ups` counts `up` calls. -/

/-- Semaphore state plus ghost operation counters. -/
structure SemSys where
  inner : SemaphoreInner
  downsCompleted : Nat
  ups : Nat

/-- Initial state for a semaphore created with `count = n`. -/
def SemSys.init (n : Nat) : SemSys :=
  { inner := (Semaphore.new n).value, downsCompleted := 0, ups := 0 }

/-- One observation-to-observation step: some current thread `t` runs
`down` or `up` to completion. -/
inductive SemStep : SemSys → SemSys → Prop where
  | down (t : Tid) (s : SemSys) (c : UPSafeCell SemaphoreInner) (b : Bool) :
      Semaphore.down t { value := s.inner, borrowed := false } = .ok (c, b) →
      SemStep s
        { inner := c.value,
          downsCompleted := if b then s.downsCompleted else s.downsCompleted + 1,
          ups := s.ups }
  | up (t : Tid) (s : SemSys) (c : UPSafeCell SemaphoreInner) (w : Option Tid) :
      Semaphore.up t { value := s.inner, borrowed := false } = .ok (c, w) →
      SemStep s
        { inner := c.value,
          downsCompleted :=
            if w.isSome then s.downsCompleted + 1 else s.downsCompleted,
          ups := s.ups + 1 }

/-- States reachable from a semaphore created with `count = n`. -/
def SemReachable (n : Nat) (s : SemSys) : Prop :=
  Relation.ReflTransGen SemStep (SemSys.init n) s

/-- Inductive invariant for the semaphore system created with `count = n`:
when the count is negative the wait queue holds exactly `|count|` threads,
when it is non-negative the queue is empty, and count plus waiters always
equals `n` minus granted downs plus ups. -/
def SemInv (n : Nat) (s : SemSys) : Prop :=
  (s.inner.count < 0 → (s.inner.wait_queue.length : Int) = -s.inner.count) ∧
  (0 ≤ s.inner.count → s.inner.wait_queue.length = 0) ∧
  s.inner.count + (s.inner.wait_queue.length : Int) =
    (n : Int) - (s.downsCompleted : Int) + (s.ups : Int)

/-- Inductive invariant for the blocking-mutex interleaving system: a
holder implies the flag is set, holders are unique, a thread observes
itself blocked exactly when it sits in the wait queue, the queue has no
duplicates, and an unlocked mutex has an empty queue. -/
def MBInv (s : MBState) : Prop :=
  (∀ t, s.obs t = MBObs.holding → s.inner.locked = true) ∧
  (∀ t u, s.obs t = MBObs.holding → s.obs u = MBObs.holding → t = u) ∧
  (∀ t, s.obs t = MBObs.blocked ↔ t ∈ s.inner.wait_queue) ∧
  s.inner.wait_queue.Nodup ∧
  (s.inner.locked = false → s.inner.wait_queue = [])

/-- Inductive invariant for the spinlock interleaving system: a holder
implies the flag is set, and holders are unique. -/
def MSInv (s : MSState) : Prop :=
  (∀ t, s.obs t = MSObs.holding → s.inner.locked = true) ∧
  (∀ t u, s.obs t = MSObs.holding → s.obs u = MSObs.holding → t = u)

/-- A contended reachable state of the blocking-mutex system: thread 1
locked the fresh mutex, then thread 2's `lock` blocked. -/
def mbDemoContended : MBState :=
  { inner := { locked := true, allocated_to := 1, wait_queue := [2] },
    obs := fun u => if u = 2 then MBObs.blocked
                    else if u = 1 then MBObs.holding else MBObs.idle }

/-- A contended reachable state of the spinlock system: thread 1 acquired
the fresh spinlock, then thread 2's lock loop found it held and is
busy-waiting. -/
def msDemoContended : MSState :=
  { inner := { locked := true, allocated_to := 1 },
    obs := fun u => if u = 2 then MSObs.spinning
                    else if u = 1 then MSObs.holding else MSObs.idle }

/-- A concrete sorted ready queue used to exercise the scheduler contract. -/
def demoQueue : ReadyQueue :=
  [({ tid := 7, priority := 4, stride := 10 }, 10),
   ({ tid := 8, priority := 4, stride := 30 }, 30)]

/-- A task whose next recorded stride lands strictly between the two
entries of `demoQueue` (priority 2^31 makes `pass = 0`, so the new stride
stays 20). -/
def demoTask : TaskControlBlock := { tid := 9, priority := 2147483648, stride := 20 }

/-- A concrete sequence of tasks fed to `add` from the empty queue. -/
def demoAdds : List TaskControlBlock :=
  [{ tid := 1, priority := 2, stride := 0 }, { tid := 2, priority := 2, stride := 0 }]

/-! ## Concrete run of the spec's semaphore scenario

Thread A = tid 1, thread B = tid 2, semaphore created with `count = 1`;
the states below are the ones the embedded `down`/`up` compute. -/

/-- State after A's `down` succeeds: `count = 0`, A holds the unit. -/
def semScenarioAfterDownA : UPSafeCell SemaphoreInner :=
  { value := { count := 0, allocated_to := {1}, wait_queue := [] }, borrowed := false }

/-- State after B's `down` blocks: `count = -1`, B queued. -/
def semScenarioAfterDownB : UPSafeCell SemaphoreInner :=
  { value := { count := -1, allocated_to := {1}, wait_queue := [2] }, borrowed := false }

/-- State after A's `up` wakes B: `count = 0`, queue empty — and nobody at
all recorded in `allocated_to`. -/
def semScenarioFinal : UPSafeCell SemaphoreInner :=
  { value := { count := 0, allocated_to := ∅, wait_queue := [] }, borrowed := false }

end RCore

deriving instance DecidableEq for Except

namespace RCore

/-! ## Characterizations of the embedded operations on a released cell

Every public operation is entered with the primitive's cell not borrowed
(each call site releases the borrow before returning or suspending); these
lemmas compute each operation on `⟨i, false⟩`. -/

theorem MutexSpin.lockStep_eq (tid : Tid) (i : MutexSpinInner) :
    MutexSpin.lockStep tid { value := i, borrowed := false } =
      if i.locked then .ok ({ value := i, borrowed := false }, false)
      else
        .ok ({ value := { i with locked := true, allocated_to := tid },
               borrowed := false }, true) := rfl

theorem MutexSpin.spin_unlock_eq (i : MutexSpinInner) :
    MutexSpin.unlock { value := i, borrowed := false } =
      .ok { value := { i with locked := false }, borrowed := false } := rfl

theorem MutexSpin.spin_get_available_eq (i : MutexSpinInner) :
    MutexSpin.get_available { value := i, borrowed := false } =
      match i.locked with
      | true => .ok 0
      | false => .ok 1 := rfl

/-- Computing `MutexSpin::get_allocation` from a released cell: on a locked
spinlock the nested `exclusive_access` of the `true` arm runs while the
scrutinee's borrow is still held, so the call dies with the cell's
panic-on-reentry; only the unlocked case returns. -/
theorem MutexSpin.spin_get_allocation_eq (i : MutexSpinInner) :
    MutexSpin.get_allocation { value := i, borrowed := false } =
      match i.locked with
      | true => .error .borrowReentry
      | false => .ok [] := rfl

theorem MutexBlocking.lock_eq (tid : Tid) (i : MutexBlockingInner) :
    MutexBlocking.lock tid { value := i, borrowed := false } =
      if i.locked then
        .ok ({ value := { i with wait_queue := i.wait_queue ++ [tid] },
               borrowed := false }, true)
      else
        .ok ({ value := { i with locked := true, allocated_to := tid },
               borrowed := false }, false) := rfl

theorem MutexBlocking.blocking_unlock_eq (i : MutexBlockingInner) :
    MutexBlocking.unlock { value := i, borrowed := false } =
      if i.locked then
        match i.wait_queue with
        | w :: rest =>
            .ok ({ value := { i with wait_queue := rest }, borrowed := false }, some w)
        | [] => .ok ({ value := { i with locked := false }, borrowed := false }, none)
      else .error .assertionFailure := rfl

theorem MutexBlocking.blocking_get_available_eq (i : MutexBlockingInner) :
    MutexBlocking.get_available { value := i, borrowed := false } =
      match i.locked with
      | true => .ok 0
      | false => .ok 1 := rfl

theorem MutexBlocking.blocking_get_allocation_eq (i : MutexBlockingInner) :
    MutexBlocking.get_allocation { value := i, borrowed := false } =
      match i.locked with
      | true => .ok [(i.allocated_to, 1)]
      | false => .ok [] := rfl

theorem MutexBlocking.blocking_get_need_eq (i : MutexBlockingInner) :
    MutexBlocking.get_need { value := i, borrowed := false } =
      .ok (i.wait_queue.map (fun tid => (tid, 1))) := rfl

theorem Semaphore.down_eq (tid : Tid) (i : SemaphoreInner) :
    Semaphore.down tid { value := i, borrowed := false } =
      if i.count - 1 < (0 : Int) then
        .ok ({ value := { i with count := i.count - 1,
                                 wait_queue := i.wait_queue ++ [tid] },
               borrowed := false }, true)
      else
        .ok ({ value := { i with count := i.count - 1,
                                 allocated_to := insert tid i.allocated_to },
               borrowed := false }, false) := rfl

theorem Semaphore.up_eq (tid : Tid) (i : SemaphoreInner) :
    Semaphore.up tid { value := i, borrowed := false } =
      if i.count + 1 ≤ 0 then
        match i.wait_queue with
        | w :: rest =>
            .ok ({ value := { i with allocated_to := i.allocated_to.erase tid,
                                     count := i.count + 1,
                                     wait_queue := rest },
                   borrowed := false }, some w)
        | [] =>
            .ok ({ value := { i with allocated_to := i.allocated_to.erase tid,
                                     count := i.count + 1 },
                   borrowed := false }, none)
      else
        .ok ({ value := { i with allocated_to := i.allocated_to.erase tid,
                                 count := i.count + 1 },
               borrowed := false }, none) := rfl

theorem Semaphore.sem_get_available_eq (i : SemaphoreInner) :
    Semaphore.get_available { value := i, borrowed := false } =
      .ok (if i.count < 0 then 0 else i.count.toNat) := rfl

/-- C1: the Resource Accounting queries are claimed to have no side effects
and never fault, and in particular `MutexSpin::get_allocation` on a locked
spinlock is claimed to return the single `(holder tid, 1)` pair without
triggering the exclusive-access cell's panic-on-reentry.  The code violates
exactly that carve-out: this theorem evaluates the embedded code at the
failing input — a spinlock freshly locked by tid 7 — and shows the query
dies with the cell's reentry panic (while `get_available` on the very same
state returns normally, isolating the fault to `get_allocation`'s nested
`exclusive_access` inside the match on the first one's borrow). -/
theorem spin_allocation_query_panics_when_locked :
    MutexSpin.lockStep 7 MutexSpin.new =
      .ok ({ value := { locked := true, allocated_to := 7 }, borrowed := false }, true) ∧
    MutexSpin.get_allocation
        { value := { locked := true, allocated_to := 7 }, borrowed := false } =
      .error .borrowReentry ∧
    MutexSpin.get_available
        { value := { locked := true, allocated_to := 7 }, borrowed := false } = .ok 0 :=
  ⟨rfl, rfl, rfl⟩

/-- C2, counterexample: running the spec's scenario (semaphore created with
`count = 1`; A = tid 1 downs and succeeds; B = tid 2 downs and blocks; A
ups, waking B) through the embedded code reaches the final state computed
here — and B's tid is not in `allocated_to` there, contradicting the
claimed "B recorded as holding the unit".  (`down`'s blocking path never
inserts the woken caller into `allocated_to` when it resumes.) -/
theorem sem_scenario_b_not_recorded :
    Semaphore.down 1 (Semaphore.new 1) = .ok (semScenarioAfterDownA, false) ∧
    Semaphore.down 2 semScenarioAfterDownA = .ok (semScenarioAfterDownB, true) ∧
    Semaphore.up 1 semScenarioAfterDownB = .ok (semScenarioFinal, some 2) ∧
    ¬ 2 ∈ semScenarioFinal.value.allocated_to := by
  decide

/-- C2, amended: in the scenario (count = 1; A downs, count becomes 0; B
downs, blocks, count becomes -1; A ups, count becomes 0 and B is woken) the
final state has `get_available() = 0` and A holding nothing — but B's tid
is not recorded in `allocated_to` either: the wakeup path transfers the
unit to B without any bookkeeping, so `allocated_to` ends empty. -/
theorem sem_scenario_final_state :
    Semaphore.down 1 (Semaphore.new 1) = .ok (semScenarioAfterDownA, false) ∧
    2 ∈ semScenarioAfterDownB.value.wait_queue ∧
    Semaphore.down 2 semScenarioAfterDownA = .ok (semScenarioAfterDownB, true) ∧
    Semaphore.up 1 semScenarioAfterDownB = .ok (semScenarioFinal, some 2) ∧
    semScenarioFinal.value.count = 0 ∧
    semScenarioFinal.value.allocated_to = ∅ ∧
    ¬ 1 ∈ semScenarioFinal.value.allocated_to ∧
    ¬ 2 ∈ semScenarioFinal.value.allocated_to ∧
    Semaphore.get_available semScenarioFinal = .ok 0 := by
  decide

/-- Helper for the FIFO part of C3: starting from a locked blocking mutex,
running as many `unlock` calls as there are waiters wakes exactly the wait
queue, in queue order.  (Each non-final `unlock` keeps `locked` set, so the
next one's assertion still passes.) -/
theorem MutexBlocking.unlockRun_fifo (q : List Tid) :
    ∀ i : MutexBlockingInner, i.locked = true → i.wait_queue = q →
      MutexBlocking.unlockRun q.length i = q := by
  induction q with
  | nil => intro i _ _; rfl
  | cons w rest ih =>
      intro i hl hq
      show MutexBlocking.unlockRun (rest.length + 1) i = w :: rest
      rw [MutexBlocking.unlockRun, MutexBlocking.blocking_unlock_eq, hl, hq]
      simp only [if_true]
      exact congrArg (w :: ·)
        (ih { locked := true, allocated_to := i.allocated_to, wait_queue := rest } rfl rfl)

/-- C3: `MutexBlocking::unlock` asserts the lock is held (fatal error when
not); when held with a non-empty wait queue it wakes exactly the FIFO head
while `locked` stays true and `allocated_to` is untouched (so
`get_available` still reports 0 during the handoff); when held with an
empty queue it clears `locked`; and successive unlocks wake the waiters in
exactly their blocking order. -/
theorem blocking_unlock_contract (i : MutexBlockingInner) :
    (i.locked = false →
        MutexBlocking.unlock { value := i, borrowed := false } =
          .error .assertionFailure) ∧
    (∀ w rest, i.locked = true → i.wait_queue = w :: rest →
        MutexBlocking.unlock { value := i, borrowed := false } =
          .ok ({ value := { i with wait_queue := rest }, borrowed := false }, some w) ∧
        MutexBlocking.get_available
            { value := { i with wait_queue := rest }, borrowed := false } = .ok 0) ∧
    (i.locked = true → i.wait_queue = [] →
        MutexBlocking.unlock { value := i, borrowed := false } =
          .ok ({ value := { i with locked := false }, borrowed := false }, none)) ∧
    (i.locked = true →
        MutexBlocking.unlockRun i.wait_queue.length i = i.wait_queue) := by
  refine ⟨fun hl => ?_, fun w rest hl hq => ⟨?_, ?_⟩, fun hl hq => ?_, fun hl => ?_⟩
  · rw [MutexBlocking.blocking_unlock_eq, hl]; rfl
  · rw [MutexBlocking.blocking_unlock_eq, hl, hq]; rfl
  · rw [MutexBlocking.blocking_get_available_eq]; simp [hl]
  · rw [MutexBlocking.blocking_unlock_eq, hl, hq]; rfl
  · exact MutexBlocking.unlockRun_fifo i.wait_queue i hl rfl

/-- C3 witness: the contract evaluated on an unheld mutex, on a mutex held
by tid 5 with waiters 1, 2, 3 (head 1 is woken, queue becomes [2, 3],
availability stays 0), on a held mutex with no waiters, and the FIFO run
waking 1, 2, 3 in order. -/
theorem blocking_unlock_contract_witness :
    MutexBlocking.unlock
        { value := { locked := false, allocated_to := 0, wait_queue := [] },
          borrowed := false } = .error .assertionFailure ∧
    (MutexBlocking.unlock
        { value := { locked := true, allocated_to := 5, wait_queue := [1, 2, 3] },
          borrowed := false } =
      .ok ({ value := { locked := true, allocated_to := 5, wait_queue := [2, 3] },
             borrowed := false }, some 1) ∧
     MutexBlocking.get_available
        { value := { locked := true, allocated_to := 5, wait_queue := [2, 3] },
          borrowed := false } = .ok 0) ∧
    MutexBlocking.unlock
        { value := { locked := true, allocated_to := 5, wait_queue := [] },
          borrowed := false } =
      .ok ({ value := { locked := false, allocated_to := 5, wait_queue := [] },
             borrowed := false }, none) ∧
    MutexBlocking.unlockRun 3 { locked := true, allocated_to := 5, wait_queue := [1, 2, 3] } =
      [1, 2, 3] :=
  ⟨(blocking_unlock_contract
      { locked := false, allocated_to := 0, wait_queue := [] }).1 rfl,
   (blocking_unlock_contract
      { locked := true, allocated_to := 5, wait_queue := [1, 2, 3] }).2.1 1 [2, 3] rfl rfl,
   (blocking_unlock_contract
      { locked := true, allocated_to := 5, wait_queue := [] }).2.2.1 rfl rfl,
   (blocking_unlock_contract
      { locked := true, allocated_to := 5, wait_queue := [1, 2, 3] }).2.2.2 rfl⟩

theorem MBInv_init : MBInv MBState.init := by
  refine ⟨fun t h => ?_, fun t u h _ => ?_, fun t => ?_, ?_, fun _ => rfl⟩
  · exact absurd h (by simp [MBState.init])
  · exact absurd h (by simp [MBState.init])
  · simp [MBState.init, MutexBlocking.new]
  · exact List.nodup_nil

theorem MBInv_step {s s' : MBState} (h : MBStep s s') (hi : MBInv s) : MBInv s' := by
  obtain ⟨h1, h2, h3, h4, h5⟩ := hi
  cases h with
  | lock t _s c b hobs hlock =>
      rw [MutexBlocking.lock_eq] at hlock
      by_cases hcl : s.inner.locked
      · rw [if_pos hcl] at hlock
        simp only [Except.ok.injEq, Prod.mk.injEq] at hlock
        obtain ⟨hc, hb⟩ := hlock
        subst hc; subst hb
        have htq : ¬ t ∈ s.inner.wait_queue := fun hmem => by
          have hb := (h3 t).mpr hmem
          rw [hobs] at hb
          exact absurd hb (by decide)
        refine ⟨fun u hu => ?_, fun u v hu hv => ?_, fun u => ?_, ?_, fun hf => ?_⟩
        · by_cases hut : u = t
          · simp [hut] at hu
          · simp only [if_neg hut] at hu; exact h1 u hu
        · by_cases hut : u = t
          · simp [hut] at hu
          · by_cases hvt : v = t
            · simp [hvt] at hv
            · simp only [if_neg hut] at hu; simp only [if_neg hvt] at hv
              exact h2 u v hu hv
        · by_cases hut : u = t
          · subst hut; simp [List.mem_append]
          · simp only [if_neg hut]
            rw [h3 u]; simp [List.mem_append, hut]
        · simp only [List.nodup_append, List.nodup_cons, List.nodup_nil]
          exact ⟨h4, ⟨by simp, trivial⟩, by
            intro a ha hb; simp at hb; subst hb; exact htq ha⟩
        · simp [hcl] at hf
      · rw [if_neg hcl] at hlock
        simp only [Except.ok.injEq, Prod.mk.injEq] at hlock
        obtain ⟨hc, hb⟩ := hlock
        subst hc; subst hb
        have hnold : ∀ u, ¬ s.obs u = MBObs.holding := fun u hu => hcl (h1 u hu)
        have hqe : s.inner.wait_queue = [] := h5 (by simpa using hcl)
        refine ⟨fun u _ => rfl, fun u v hu hv => ?_, fun u => ?_, ?_, fun hf => ?_⟩
        · by_cases hut : u = t
          · by_cases hvt : v = t
            · rw [hut, hvt]
            · simp only [if_neg hvt] at hv; exact absurd hv (hnold v)
          · simp only [if_neg hut] at hu; exact absurd hu (hnold u)
        · by_cases hut : u = t
          · simp [hut, hqe]
          · simp only [if_neg hut]
            rw [h3 u]
        · exact h4
        · simp [hcl] at hf
  | unlock t _s c w hobs hunlock =>
      have hcl : s.inner.locked = true := h1 t hobs
      rw [MutexBlocking.blocking_unlock_eq, if_pos (by simp [hcl])] at hunlock
      cases hq : s.inner.wait_queue with
      | cons w0 rest =>
          rw [hq] at hunlock
          simp only [Except.ok.injEq, Prod.mk.injEq] at hunlock
          obtain ⟨hc, hw⟩ := hunlock
          subst hc; subst hw
          have hw0q : w0 ∈ s.inner.wait_queue := by rw [hq]; exact List.mem_cons_self _ _
          have hw0b : s.obs w0 = MBObs.blocked := (h3 w0).mpr hw0q
          have hw0t : ¬ w0 = t := fun he => by rw [he, hobs] at hw0b; cases hw0b
          have hnodup := h4
          rw [hq] at hnodup
          have hw0rest : ¬ w0 ∈ rest := (List.nodup_cons.mp hnodup).1
          have hrestnodup : rest.Nodup := (List.nodup_cons.mp hnodup).2
          refine ⟨fun u _ => by simpa using hcl, fun u v hu hv => ?_, fun u => ?_, hrestnodup,
            fun hf => ?_⟩
          · by_cases huw : some u = some w0
            · by_cases hvw : some v = some w0
              · simp only [Option.some.injEq] at huw hvw; rw [huw, hvw]
              · simp only [if_neg hvw] at hv
                by_cases hvt : v = t
                · simp only [if_pos hvt] at hv; cases hv
                · simp only [if_neg hvt] at hv
                  exact absurd (h2 v t hv hobs) hvt
            · simp only [if_neg huw] at hu
              by_cases hut : u = t
              · simp only [if_pos hut] at hu; cases hu
              · simp only [if_neg hut] at hu
                exact absurd (h2 u t hu hobs) hut
          · by_cases huw : some u = some w0
            · simp only [if_pos huw]
              simp only [Option.some.injEq] at huw
              subst huw
              constructor
              · intro he; cases he
              · intro hmem; exact absurd hmem hw0rest
            · simp only [if_neg huw]
              simp only [Option.some.injEq] at huw
              by_cases hut : u = t
              · simp only [if_pos hut]
                constructor
                · intro he; cases he
                · intro hmem
                  have : u ∈ s.inner.wait_queue := by
                    rw [hq]; exact List.mem_cons_of_mem _ hmem
                  rw [hut] at this
                  have := (h3 t).mpr this
                  rw [hobs] at this; cases this
              · simp only [if_neg hut]
                rw [h3 u, hq]
                simp [huw]
          · simp [hcl] at hf
      | nil =>
          rw [hq] at hunlock
          simp only [Except.ok.injEq, Prod.mk.injEq] at hunlock
          obtain ⟨hc, hw⟩ := hunlock
          subst hc; subst hw
          refine ⟨fun u hu => ?_, fun u v hu hv => ?_, fun u => ?_, ?_, fun _ => rfl⟩
          · simp only [show ∀ x : Tid, (some x = none) = False from fun x => by simp] at hu
            by_cases hut : u = t
            · simp only [if_pos hut] at hu
              simp at hu
            · simp only [if_neg hut] at hu
              simp only [eq_self_iff_true, if_false] at hu
              exact absurd (h2 u t hu hobs) hut
          · exfalso
            by_cases hut : u = t
            · simp [hut] at hu
            · simp only [show (some u = none) = False from by simp, if_false, if_neg hut] at hu
              exact hut (h2 u t hu hobs)
          · constructor
            · intro hu
              by_cases hut : u = t
              · simp [hut] at hu
              · simp only [show (some u = none) = False from by simp, if_false,
                  if_neg hut] at hu
                have := (h3 u).mp hu
                rw [hq] at this; cases this
            · intro hmem
              simp at hmem
          · exact List.nodup_nil

theorem MBInv_reachable {s : MBState} (h : MBReachable s) : MBInv s := by
  induction h with
  | refl => exact MBInv_init
  | tail _ hstep ih => exact MBInv_step hstep ih

theorem MSInv_init : MSInv MSState.init := by
  constructor
  · intro t h; exact absurd h (by simp [MSState.init])
  · intro t u h _; exact absurd h (by simp [MSState.init])

theorem MSInv_step {s s' : MSState} (h : MSStep s s') (hi : MSInv s) : MSInv s' := by
  obtain ⟨h1, h2⟩ := hi
  cases h with
  | lockTry t _s c b hobs hlock =>
      rw [MutexSpin.lockStep_eq] at hlock
      by_cases hcl : s.inner.locked
      · rw [if_pos hcl] at hlock
        simp only [Except.ok.injEq, Prod.mk.injEq] at hlock
        obtain ⟨hc, hb⟩ := hlock
        subst hc; subst hb
        have hnotholding : ¬ s.obs t = MSObs.holding := by
          cases hobs with
          | inl h => rw [h]; exact fun he => by cases he
          | inr h => rw [h]; exact fun he => by cases he
        refine ⟨fun u hu => ?_, fun u v hu hv => ?_⟩
        · by_cases hut : u = t
          · simp [hut] at hu
          · simp only [if_neg hut] at hu; exact h1 u hu
        · by_cases hut : u = t
          · simp [hut] at hu
          · by_cases hvt : v = t
            · simp [hvt] at hv
            · simp only [if_neg hut] at hu; simp only [if_neg hvt] at hv
              exact h2 u v hu hv
      · rw [if_neg hcl] at hlock
        simp only [Except.ok.injEq, Prod.mk.injEq] at hlock
        obtain ⟨hc, hb⟩ := hlock
        subst hc; subst hb
        have hnold : ∀ u, ¬ s.obs u = MSObs.holding := fun u hu => hcl (h1 u hu)
        refine ⟨fun u _ => rfl, fun u v hu hv => ?_⟩
        by_cases hut : u = t
        · by_cases hvt : v = t
          · rw [hut, hvt]
          · simp only [if_neg hvt] at hv; exact absurd hv (hnold v)
        · simp only [if_neg hut] at hu; exact absurd hu (hnold u)
  | unlock t _s c hobs hunlock =>
      rw [MutexSpin.spin_unlock_eq] at hunlock
      simp only [Except.ok.injEq] at hunlock
      subst hunlock
      refine ⟨fun u hu => ?_, fun u v hu hv => ?_⟩
      · by_cases hut : u = t
        · simp [hut] at hu
        · simp only [if_neg hut] at hu
          exact absurd (h2 u t hu hobs) hut
      · exfalso
        by_cases hut : u = t
        · simp [hut] at hu
        · simp only [if_neg hut] at hu
          exact hut (h2 u t hu hobs)

theorem MSInv_reachable {s : MSState} (h : MSReachable s) : MSInv s := by
  induction h with
  | refl => exact MSInv_init
  | tail _ hstep ih => exact MSInv_step hstep ih

/-- C4: mutual exclusion for both mutexes.  In every state reachable by an
interleaving of protocol-respecting `lock`/`unlock` calls, at most one
thread observes itself as holder (between its successful `lock` — or its
wakeup by the previous holder's `unlock`, for the blocking mutex — and its
own matching `unlock`), and the `allocated_to` bookkeeping, being a single
tid field, never lists more than one holder in `get_allocation`. -/
theorem mutex_mutual_exclusion (sb : MBState) (ss : MSState)
    (hb : MBReachable sb) (hs : MSReachable ss) :
    sb.atMostOneHolder ∧ MutexBlocking.allocationAtMostOne sb ∧
    ss.atMostOneHolder ∧ MutexSpin.allocationAtMostOne ss := by
  refine ⟨(MBInv_reachable hb).2.1, ?_, (MSInv_reachable hs).2, ?_⟩
  · intro l hl
    rw [MutexBlocking.blocking_get_allocation_eq] at hl
    cases hcl : sb.inner.locked with
    | true => rw [hcl] at hl; cases hl; simp
    | false => rw [hcl] at hl; cases hl; simp
  · intro l hl
    rw [MutexSpin.spin_get_allocation_eq] at hl
    cases hcl : ss.inner.locked with
    | true => rw [hcl] at hl; cases hl
    | false => rw [hcl] at hl; cases hl; simp

/-- Reaching the contended blocking-mutex demo state: thread 1 locks the
fresh mutex, then thread 2's `lock` enqueues and blocks it. -/
theorem mbDemoContended_reachable : MBReachable mbDemoContended :=
  Relation.ReflTransGen.tail
    (Relation.ReflTransGen.tail Relation.ReflTransGen.refl
      (MBStep.lock 1 MBState.init
        { value := { locked := true, allocated_to := 1, wait_queue := [] },
          borrowed := false } false rfl rfl))
    (MBStep.lock 2
      { inner := { locked := true, allocated_to := 1, wait_queue := [] },
        obs := fun u => if u = 1 then MBObs.holding else MBObs.idle }
      { value := { locked := true, allocated_to := 1, wait_queue := [2] },
        borrowed := false } true rfl rfl)

/-- Reaching the contended spinlock demo state: thread 1 acquires the fresh
spinlock, then thread 2's lock iteration finds it held and keeps spinning. -/
theorem msDemoContended_reachable : MSReachable msDemoContended :=
  Relation.ReflTransGen.tail
    (Relation.ReflTransGen.tail Relation.ReflTransGen.refl
      (MSStep.lockTry 1 MSState.init
        { value := { locked := true, allocated_to := 1 }, borrowed := false }
        true (Or.inl rfl) rfl))
    (MSStep.lockTry 2
      { inner := { locked := true, allocated_to := 1 },
        obs := fun u => if u = 1 then MSObs.holding else MSObs.idle }
      { value := { locked := true, allocated_to := 1 }, borrowed := false }
      false (Or.inl rfl) rfl)

/-- C4 witness: the mutual-exclusion theorem evaluated at two concrete
contended reachable states (thread 1 holding, thread 2 blocked resp.
spinning). -/
theorem mutex_mutual_exclusion_witness :
    mbDemoContended.atMostOneHolder ∧ MutexBlocking.allocationAtMostOne mbDemoContended ∧
    msDemoContended.atMostOneHolder ∧ MutexSpin.allocationAtMostOne msDemoContended :=
  mutex_mutual_exclusion mbDemoContended msDemoContended
    mbDemoContended_reachable msDemoContended_reachable

theorem TaskManager.add_nil (t : TaskControlBlock) :
    TaskManager.add [] t = [TaskManager.entryOf t] := rfl

/-- `add` on a queue whose head already has a strictly greater recorded
stride inserts the new entry at the very front. -/
theorem TaskManager.add_cons_of_gt {e : TaskControlBlock × Nat} {q : ReadyQueue}
    {t : TaskControlBlock} (h : t.stride + BIG_STRIDE / t.priority < e.2) :
    TaskManager.add (e :: q) t = TaskManager.entryOf t :: e :: q := by
  simp only [TaskManager.add, List.findIdx?_cons]
  rw [if_pos (decide_eq_true h)]
  rfl

/-- `add` walks past a head entry whose recorded stride is
less than or equal to the new stride. -/
theorem TaskManager.add_cons_of_le {e : TaskControlBlock × Nat} {q : ReadyQueue}
    {t : TaskControlBlock} (h : e.2 ≤ t.stride + BIG_STRIDE / t.priority) :
    TaskManager.add (e :: q) t = e :: TaskManager.add q t := by
  simp only [TaskManager.add, List.findIdx?_cons]
  rw [if_neg (by simp only [decide_eq_true_eq]; exact not_lt.mpr h), List.findIdx?_succ]
  cases hf : List.findIdx? (fun a => a.2 > t.stride + BIG_STRIDE / t.priority) q with
  | none => simp [hf]
  | some i => simp [hf, List.insertIdx_succ_cons]

/-- Every entry of `add q t` is the freshly inserted entry or one of `q`. -/
theorem TaskManager.mem_add {q : ReadyQueue} {t : TaskControlBlock}
    {b : TaskControlBlock × Nat} (hb : b ∈ TaskManager.add q t) :
    b = TaskManager.entryOf t ∨ b ∈ q := by
  induction q with
  | nil =>
      rw [TaskManager.add_nil] at hb
      exact Or.inl (List.mem_singleton.mp hb)
  | cons e q' ih =>
      by_cases he : e.2 ≤ t.stride + BIG_STRIDE / t.priority
      · rw [TaskManager.add_cons_of_le he] at hb
        rcases List.mem_cons.mp hb with h | h
        · exact Or.inr (h ▸ List.mem_cons_self e q')
        · rcases ih h with h' | h'
          · exact Or.inl h'
          · exact Or.inr (List.mem_cons_of_mem _ h')
      · rw [TaskManager.add_cons_of_gt (not_le.mp he)] at hb
        rcases List.mem_cons.mp hb with h | h
        · exact Or.inl h
        · exact Or.inr h

/-- `add` preserves ascending-stride sortedness. -/
theorem TaskManager.sorted_add {q : ReadyQueue} (t : TaskControlBlock)
    (hq : sortedByStride q) : sortedByStride (TaskManager.add q t) := by
  induction q with
  | nil => rw [TaskManager.add_nil]; exact List.pairwise_singleton _ _
  | cons e q' ih =>
      obtain ⟨he, hq'⟩ := List.pairwise_cons.mp hq
      by_cases hle : e.2 ≤ t.stride + BIG_STRIDE / t.priority
      · rw [TaskManager.add_cons_of_le hle]
        refine List.pairwise_cons.mpr ⟨?_, ih hq'⟩
        intro b hb
        rcases TaskManager.mem_add hb with rfl | h
        · exact hle
        · exact he b h
      · rw [TaskManager.add_cons_of_gt (not_le.mp hle)]
        refine List.pairwise_cons.mpr ⟨?_, hq⟩
        intro b hb
        rcases List.mem_cons.mp hb with rfl | h
        · exact le_of_lt (not_le.mp hle)
        · exact le_trans (le_of_lt (not_le.mp hle)) (he b h)

/-- Any sequence of `add` calls keeps the queue sorted. -/
theorem TaskManager.sorted_foldl (ts : List TaskControlBlock) :
    ∀ q, sortedByStride q → sortedByStride (ts.foldl TaskManager.add q) := by
  induction ts with
  | nil => exact fun _ hq => hq
  | cons t ts' ih => exact fun q hq => ih _ (TaskManager.sorted_add t hq)

/-- `add` splits the queue at the first entry with a strictly greater
recorded stride: it keeps the longest prefix of entries with stride at most
the new stride, then the new entry, then the rest. -/
theorem TaskManager.add_eq_insert_point (q : ReadyQueue) (t : TaskControlBlock) :
    TaskManager.add q t =
      q.takeWhile (fun a => a.2 ≤ (TaskManager.entryOf t).2) ++
        TaskManager.entryOf t ::
          q.dropWhile (fun a => a.2 ≤ (TaskManager.entryOf t).2) := by
  induction q with
  | nil => rfl
  | cons e q' ih =>
      by_cases he : e.2 ≤ t.stride + BIG_STRIDE / t.priority
      · have he' : decide (e.2 ≤ (TaskManager.entryOf t).2) = true := decide_eq_true he
        rw [TaskManager.add_cons_of_le he, ih, List.takeWhile_cons, List.dropWhile_cons,
          if_pos he', if_pos he']
        rfl
      · have he' : ¬ decide (e.2 ≤ (TaskManager.entryOf t).2) = true := by
          simp only [decide_eq_true_eq]; exact he
        rw [TaskManager.add_cons_of_gt (not_le.mp he), List.takeWhile_cons,
          List.dropWhile_cons, if_neg he', if_neg he']
        rfl

/-- `add` is an insertion at some position at most the queue's length; the
inserted entry carries stride `t.stride + BIG_STRIDE / t.priority`. -/
theorem TaskManager.add_insert (q : ReadyQueue) (t : TaskControlBlock) :
    ∃ i, i ≤ q.length ∧
      TaskManager.add q t = q.take i ++ TaskManager.entryOf t :: q.drop i := by
  induction q with
  | nil => exact ⟨0, Nat.le_refl 0, rfl⟩
  | cons e q' ih =>
      by_cases he : e.2 ≤ t.stride + BIG_STRIDE / t.priority
      · obtain ⟨i, hi, heq⟩ := ih
        exact ⟨i + 1, Nat.succ_le_succ hi, by
          rw [TaskManager.add_cons_of_le he, heq]; rfl⟩
      · exact ⟨0, Nat.zero_le _, by rw [TaskManager.add_cons_of_gt (not_le.mp he)]; rfl⟩

/-- C5: the ready queue stays sorted ascending by recorded stride under
every sequence of `add` calls; each `add` inserts the thread immediately
before the first entry with strictly greater recorded stride (after all
equal-or-smaller entries, so ties keep arrival order); and `fetch` pops the
front, which on a sorted queue carries the lowest stride (or reports empty
on an empty queue). -/
theorem ready_queue_sorted_contract (ts : List TaskControlBlock) (q : ReadyQueue)
    (t : TaskControlBlock) (hq : sortedByStride q) :
    sortedByStride (ts.foldl TaskManager.add []) ∧
    sortedByStride (TaskManager.add q t) ∧
    TaskManager.add q t =
      q.takeWhile (fun a => a.2 ≤ (TaskManager.entryOf t).2) ++
        TaskManager.entryOf t ::
          q.dropWhile (fun a => a.2 ≤ (TaskManager.entryOf t).2) ∧
    TaskManager.fetch [] = (none, []) ∧
    (∀ e rest, q = e :: rest →
      TaskManager.fetch q = (some e.1, rest) ∧ ∀ b, b ∈ rest → e.2 ≤ b.2) := by
  refine ⟨TaskManager.sorted_foldl ts [] List.Pairwise.nil,
    TaskManager.sorted_add t hq, TaskManager.add_eq_insert_point q t, rfl,
    fun e rest hqe => ⟨by rw [hqe]; rfl, fun b hb => ?_⟩⟩
  subst hqe
  exact (List.pairwise_cons.mp hq).1 b hb

/-- C5 witness: the contract evaluated on the sorted queue with recorded
strides 10 and 30 and a task whose new stride is 20 (priority 2^31 gives
pass 0): the new entry goes between the two, and `fetch` returns the front
entry, whose stride is lowest. -/
theorem ready_queue_sorted_contract_witness :
    sortedByStride (demoAdds.foldl TaskManager.add []) ∧
    sortedByStride (TaskManager.add demoQueue demoTask) ∧
    TaskManager.add demoQueue demoTask =
      demoQueue.takeWhile (fun a => a.2 ≤ (TaskManager.entryOf demoTask).2) ++
        TaskManager.entryOf demoTask ::
          demoQueue.dropWhile (fun a => a.2 ≤ (TaskManager.entryOf demoTask).2) ∧
    TaskManager.fetch [] = (none, []) ∧
    TaskManager.fetch demoQueue =
      (some { tid := 7, priority := 4, stride := 10 }, demoQueue.tail) ∧
    ∀ b, b ∈ demoQueue.tail → (10 : Nat) ≤ b.2 := by
  obtain ⟨h1, h2, h3, h4, h5⟩ :=
    ready_queue_sorted_contract demoAdds demoQueue demoTask
      (List.pairwise_cons.mpr ⟨by decide, List.pairwise_singleton _ _⟩)
  have h6 := h5 ({ tid := 7, priority := 4, stride := 10 }, 10)
      [({ tid := 8, priority := 4, stride := 30 }, 30)] rfl
  exact ⟨h1, h2, h3, h4, h6.1, h6.2⟩

/-- C7: for a thread of priority at least 2, `add` computes
`pass = BIG_STRIDE / priority` with `BIG_STRIDE = 2^30` by integer
division, bounds it by `BIG_STRIDE / 2`, and bumps the thread's recorded
stride by exactly `pass` (hence never decreases it); the stride is written
only by `add` — `fetch` returns the queue's tail with every remaining
entry, stride included, untouched. -/
theorem stride_accumulation (q : ReadyQueue) (t : TaskControlBlock)
    (hp : 2 ≤ t.priority) :
    BIG_STRIDE = 2 ^ 30 ∧
    (TaskManager.entryOf t).1.stride = t.stride + BIG_STRIDE / t.priority ∧
    t.stride ≤ (TaskManager.entryOf t).1.stride ∧
    BIG_STRIDE / t.priority ≤ BIG_STRIDE / 2 ∧
    (∃ i, i ≤ q.length ∧
      TaskManager.add q t = q.take i ++ TaskManager.entryOf t :: q.drop i) ∧
    (TaskManager.fetch q).2 = q.tail := by
  refine ⟨by decide, rfl, Nat.le_add_right _ _,
    Nat.div_le_div_left hp (by decide), TaskManager.add_insert q t, ?_⟩
  cases q with
  | nil => rfl
  | cons e rest => rfl

/-- C7 witness: the stride contract evaluated for a task of priority 4 and
stride 100 added to the two-entry demo queue: `pass = 2^30 / 4` and the
entry recorded for the task carries stride `100 + 2^30 / 4`. -/
theorem stride_accumulation_witness :
    BIG_STRIDE = 2 ^ 30 ∧
    (TaskManager.entryOf { tid := 3, priority := 4, stride := 100 }).1.stride =
      100 + BIG_STRIDE / 4 ∧
    (100 : Nat) ≤
      (TaskManager.entryOf { tid := 3, priority := 4, stride := 100 }).1.stride ∧
    BIG_STRIDE / 4 ≤ BIG_STRIDE / 2 ∧
    (∃ i, i ≤ demoQueue.length ∧
      TaskManager.add demoQueue { tid := 3, priority := 4, stride := 100 } =
        demoQueue.take i ++
          TaskManager.entryOf { tid := 3, priority := 4, stride := 100 } ::
            demoQueue.drop i) ∧
    (TaskManager.fetch demoQueue).2 = demoQueue.tail :=
  stride_accumulation demoQueue { tid := 3, priority := 4, stride := 100 }
    (by decide)

/-- C8: `set_priority(value)` returns the sentinel `-1` and leaves the
calling thread's priority unchanged when `value < 2`; for `value ≥ 2` it
stores the value and returns it, and the thread's next `add` computes
`pass = BIG_STRIDE / value`, inserting the entry with stride bumped by that
pass. -/
theorem set_priority_contract (prio : Int) (task : TaskControlBlock) :
    (prio < 2 → set_priority prio task = (-1, task)) ∧
    (2 ≤ prio →
      set_priority prio task = (prio, { task with priority := prio.toNat }) ∧
      ∀ q : ReadyQueue, ∃ i, i ≤ q.length ∧
        TaskManager.add q (set_priority prio task).2 =
          q.take i ++
            ({ task with
                 priority := prio.toNat,
                 stride := task.stride + BIG_STRIDE / prio.toNat },
             task.stride + BIG_STRIDE / prio.toNat) :: q.drop i) := by
  constructor
  · intro h
    rw [set_priority, if_pos h]
  · intro h
    have hno : ¬ prio < 2 := not_lt.mpr h
    refine ⟨by rw [set_priority, if_neg hno], fun q => ?_⟩
    have := TaskManager.add_insert q { task with priority := prio.toNat }
    simpa [set_priority, if_neg hno, TaskManager.entryOf] using this

/-- C8 witness: `set_priority(1)` errors with the task unchanged;
`set_priority(5)` returns 5 and a following `add` to the empty queue
records stride `0 + BIG_STRIDE / 5`. -/
theorem set_priority_contract_witness :
    set_priority 1 { tid := 4, priority := 16, stride := 0 } =
      (-1, { tid := 4, priority := 16, stride := 0 }) ∧
    set_priority 5 { tid := 4, priority := 16, stride := 0 } =
      (5, { tid := 4, priority := 5, stride := 0 }) ∧
    ∃ i, i ≤ ([] : ReadyQueue).length ∧
      TaskManager.add []
          (set_priority 5 { tid := 4, priority := 16, stride := 0 }).2 =
        ([] : ReadyQueue).take i ++
          ({ tid := 4, priority := 5, stride := 0 + BIG_STRIDE / 5 },
           0 + BIG_STRIDE / 5) :: ([] : ReadyQueue).drop i := by
  refine ⟨(set_priority_contract 1 { tid := 4, priority := 16, stride := 0 }).1
      (by decide), ?_, ?_⟩
  · exact ((set_priority_contract 5 { tid := 4, priority := 16, stride := 0 }).2
      (by decide)).1
  · exact ((set_priority_contract 5 { tid := 4, priority := 16, stride := 0 }).2
      (by decide)).2 []

/-- C9: `Semaphore::up` is total on every state entered with the cell
released: it never faults; it attempts a wakeup exactly when the
post-increment count is at most 0 — waking the queue head when one exists,
and silently doing nothing (the `if let` guard) when the queue is empty in
that situation; above 0 it wakes nobody. -/
theorem semaphore_up_total (tid : Tid) (i : SemaphoreInner) :
    (∃ r, Semaphore.up tid { value := i, borrowed := false } = .ok r) ∧
    (i.count + 1 ≤ 0 → i.wait_queue = [] →
      Semaphore.up tid { value := i, borrowed := false } =
        .ok ({ value := { i with
                          allocated_to := i.allocated_to.erase tid,
                          count := i.count + 1 }, borrowed := false }, none)) ∧
    (∀ w rest, i.count + 1 ≤ 0 → i.wait_queue = w :: rest →
      Semaphore.up tid { value := i, borrowed := false } =
        .ok ({ value := { i with
                          allocated_to := i.allocated_to.erase tid,
                          count := i.count + 1, wait_queue := rest },
               borrowed := false }, some w)) ∧
    (0 < i.count + 1 →
      Semaphore.up tid { value := i, borrowed := false } =
        .ok ({ value := { i with
                          allocated_to := i.allocated_to.erase tid,
                          count := i.count + 1 }, borrowed := false }, none)) := by
  refine ⟨?_, fun hc hq => ?_, fun w rest hc hq => ?_, fun hc => ?_⟩
  · rw [Semaphore.up_eq]
    by_cases hc : i.count + 1 ≤ 0
    · rw [if_pos hc]
      cases i.wait_queue with
      | nil => exact ⟨_, rfl⟩
      | cons w rest => exact ⟨_, rfl⟩
    · rw [if_neg hc]
      exact ⟨_, rfl⟩
  · rw [Semaphore.up_eq, if_pos hc, hq]
  · rw [Semaphore.up_eq, if_pos hc, hq]
  · rw [Semaphore.up_eq, if_neg (not_le.mpr hc)]

/-- C9 witness: `up` by tid 3 on the pathological state with `count = -2`
and an empty wait queue returns normally with no wakeup; on `count = -1`
with thread 4 queued it wakes 4; on `count = 5` it wakes nobody. -/
theorem semaphore_up_total_witness :
    (∃ r, Semaphore.up 3
        { value := { count := -2, allocated_to := {3}, wait_queue := [] },
          borrowed := false } = .ok r) ∧
    Semaphore.up 3
        { value := { count := -2, allocated_to := {3}, wait_queue := [] },
          borrowed := false } =
      .ok ({ value := { count := -1, allocated_to := ∅, wait_queue := [] },
             borrowed := false }, none) ∧
    Semaphore.up 3
        { value := { count := -1, allocated_to := ∅, wait_queue := [4] },
          borrowed := false } =
      .ok ({ value := { count := 0, allocated_to := ∅, wait_queue := [] },
             borrowed := false }, some 4) ∧
    Semaphore.up 3
        { value := { count := 5, allocated_to := ∅, wait_queue := [] },
          borrowed := false } =
      .ok ({ value := { count := 6, allocated_to := ∅, wait_queue := [] },
             borrowed := false }, none) := by
  refine ⟨(semaphore_up_total 3
      { count := -2, allocated_to := {3}, wait_queue := [] }).1, ?_, ?_, ?_⟩
  · have := (semaphore_up_total 3
      { count := -2, allocated_to := {3}, wait_queue := [] }).2.1 (by decide) rfl
    rw [this]
    decide
  · have := (semaphore_up_total 3
      { count := -1, allocated_to := ∅, wait_queue := [4] }).2.2.1 4 [] (by decide) rfl
    rw [this]
    decide
  · have := (semaphore_up_total 3
      { count := 5, allocated_to := ∅, wait_queue := [] }).2.2.2 (by decide)
    rw [this]
    decide

/-- C10: `MutexSpin::get_need` returns the empty sequence in every state —
in particular in every reachable state of the spinlock system, including
states in which threads are busy-waiting inside `MutexSpin::lock`; a
spinning waiter is recorded nowhere, so the accounting interface exposes no
outstanding demand for a contended spinlock. -/
theorem spin_need_always_empty (s : MSState) (_h : MSReachable s) :
    MutexSpin.get_need { value := s.inner, borrowed := false } = [] ∧
    ∀ c : UPSafeCell MutexSpinInner, MutexSpin.get_need c = [] :=
  ⟨rfl, fun _ => rfl⟩

/-- C10 witness: in the reachable contended state — thread 1 holding,
thread 2 busy-waiting — `get_need` still reports no demand. -/
theorem spin_need_always_empty_witness :
    MutexSpin.get_need { value := msDemoContended.inner, borrowed := false } = [] ∧
    msDemoContended.obs 2 = MSObs.spinning :=
  ⟨(spin_need_always_empty msDemoContended msDemoContended_reachable).1, rfl⟩

theorem SemInv_init (n : Nat) : SemInv n (SemSys.init n) := by
  refine ⟨fun hneg => ?_, fun _ => rfl, ?_⟩
  · exact absurd hneg (by simp [SemSys.init, Semaphore.new])
  · simp [SemSys.init, Semaphore.new]

theorem SemInv_step {n : Nat} {s s' : SemSys} (h : SemStep s s') (hi : SemInv n s) :
    SemInv n s' := by
  obtain ⟨h1, h2, h3⟩ := hi
  cases h with
  | down t _s c b hdown =>
      rw [Semaphore.down_eq] at hdown
      by_cases hc : s.inner.count - 1 < (0 : Int)
      · rw [if_pos hc] at hdown
        simp only [Except.ok.injEq, Prod.mk.injEq] at hdown
        obtain ⟨hcell, hb⟩ := hdown
        subst hcell; subst hb
        unfold SemInv
        dsimp only
        simp only [List.length_append, List.length_cons, List.length_nil]
        rcases lt_or_le s.inner.count 0 with hs | hs
        · have hlen := h1 hs
          refine ⟨fun hneg => ?_, fun hpos => ?_, ?_⟩ <;> push_cast at * <;> omega
        · have hlen := h2 hs
          refine ⟨fun hneg => ?_, fun hpos => ?_, ?_⟩ <;> push_cast at * <;> omega
      · rw [if_neg hc] at hdown
        simp only [Except.ok.injEq, Prod.mk.injEq] at hdown
        obtain ⟨hcell, hb⟩ := hdown
        subst hcell; subst hb
        unfold SemInv
        dsimp only
        rcases lt_or_le s.inner.count 0 with hs | hs
        · have hlen := h1 hs
          refine ⟨fun hneg => ?_, fun hpos => ?_, ?_⟩ <;> push_cast at * <;> omega
        · have hlen := h2 hs
          refine ⟨fun hneg => ?_, fun hpos => ?_, ?_⟩ <;> push_cast at * <;> omega
  | up t _s c w hup =>
      rw [Semaphore.up_eq] at hup
      by_cases hc : s.inner.count + 1 ≤ (0 : Int)
      · rw [if_pos hc] at hup
        cases hq : s.inner.wait_queue with
        | cons w0 rest =>
            rw [hq] at hup
            simp only [Except.ok.injEq, Prod.mk.injEq] at hup
            obtain ⟨hcell, hw⟩ := hup
            subst hcell; subst hw
            have hlenq : s.inner.wait_queue.length = rest.length + 1 := by
              rw [hq]; rfl
            unfold SemInv
            simp only [Option.isSome_some, ite_true]
            rcases lt_or_le s.inner.count 0 with hs | hs
            · have hlen := h1 hs
              refine ⟨fun hneg => ?_, fun hpos => ?_, ?_⟩ <;> push_cast at * <;> omega
            · have hlen := h2 hs
              refine ⟨fun hneg => ?_, fun hpos => ?_, ?_⟩ <;> push_cast at * <;> omega
        | nil =>
            rw [hq] at hup
            simp only [Except.ok.injEq, Prod.mk.injEq] at hup
            obtain ⟨hcell, hw⟩ := hup
            subst hcell; subst hw
            have hlenq : s.inner.wait_queue.length = 0 := by rw [hq]; rfl
            unfold SemInv
            simp only [Option.isSome_none, Bool.false_eq_true, ite_false]
            rcases lt_or_le s.inner.count 0 with hs | hs
            · have hlen := h1 hs
              refine ⟨fun hneg => ?_, fun hpos => ?_, ?_⟩ <;> push_cast at * <;> omega
            · have hlen := h2 hs
              refine ⟨fun hneg => ?_, fun hpos => ?_, ?_⟩ <;> push_cast at * <;> omega
      · rw [if_neg hc] at hup
        simp only [Except.ok.injEq, Prod.mk.injEq] at hup
        obtain ⟨hcell, hw⟩ := hup
        subst hcell; subst hw
        unfold SemInv
        simp only [Option.isSome_none, Bool.false_eq_true, ite_false]
        rcases lt_or_le s.inner.count 0 with hs | hs
        · have hlen := h1 hs
          refine ⟨fun hneg => ?_, fun hpos => ?_, ?_⟩ <;> push_cast at * <;> omega
        · have hlen := h2 hs
          refine ⟨fun hneg => ?_, fun hpos => ?_, ?_⟩ <;> push_cast at * <;> omega

theorem SemInv_reachable {n : Nat} {s : SemSys} (h : SemReachable n s) : SemInv n s := by
  induction h with
  | refl => exact SemInv_init n
  | tail _ hstep ih => exact SemInv_step hstep ih

/-- C6: for every sequence of `down` and `up` calls on a semaphore created
with `count = n`, at every observation point a negative count means the
wait queue holds exactly `|count|` waiters, and count plus waiters equals
`n` minus the downs granted a unit not yet matched by ups (a blocked `down`
counts as granted at the instant an `up` pops and wakes it). -/
theorem semaphore_conservation (n : Nat) (s : SemSys) (h : SemReachable n s) :
    (s.inner.count < 0 →
      (s.inner.wait_queue.length : Int) = -s.inner.count) ∧
    s.inner.count + (s.inner.wait_queue.length : Int) =
      (n : Int) - ((s.downsCompleted : Int) - (s.ups : Int)) := by
  obtain ⟨h1, _h2, h3⟩ := SemInv_reachable h
  exact ⟨h1, by omega⟩

/-- C6 witness: after `down` by thread 1 and a blocking `down` by thread 2
on a semaphore created with `count = 1`, the count is -1, the queue length
is 1 = |count|, and -1 + 1 = 1 - (1 - 0) holds: one down granted, no ups. -/
theorem semaphore_conservation_witness :
    ((semScenarioAfterDownB.value.wait_queue.length : Int) =
      -semScenarioAfterDownB.value.count) ∧
    semScenarioAfterDownB.value.count +
        (semScenarioAfterDownB.value.wait_queue.length : Int) =
      (1 : Int) - (((1 : Nat) : Int) - ((0 : Nat) : Int)) := by
  have hreach : SemReachable 1
      { inner := semScenarioAfterDownB.value, downsCompleted := 1, ups := 0 } :=
    Relation.ReflTransGen.tail
      (Relation.ReflTransGen.tail Relation.ReflTransGen.refl
        (SemStep.down 1 (SemSys.init 1) semScenarioAfterDownA false (by decide)))
      (SemStep.down 2
        { inner := semScenarioAfterDownA.value, downsCompleted := 1, ups := 0 }
        semScenarioAfterDownB true (by decide))
  have h := semaphore_conservation 1
    { inner := semScenarioAfterDownB.value, downsCompleted := 1, ups := 0 } hreach
  exact ⟨h.1 (by decide), h.2⟩

end RCore
